import Mathlib

/- Verification of the archivist history-archive consistency engine
   (package archivist, archive.go): a shallow embedding of the data model
   and operations of the source file, together with models, taken from
   the specification, of the collaborator types that the source file
   uses but that are defined elsewhere in the repository (Range, Hash,
   HistoryArchiveState, DirPrefix, the storage backends). -/

/-- Go strings are modelled as lists of characters. -/
abbrev GoStr := List Char

/-- Bucket hashes are 32-byte identifiers, canonically rendered as 64
    lowercase hex characters; modelled as natural numbers (the big-endian
    value of the bytes), used only as opaque names. -/
abbrev Hash := Nat

/-- Errors are modelled by their message. -/
abbrev GoErr := GoStr

/-- Lookup in a Go map modelled as an association list. -/
def mapLookup {α β : Type} [DecidableEq α] : List (α × β) → α → Option β
  | [], _ => none
  | (k, v) :: rest, a => if k = a then some v else mapLookup rest a

/-- Insertion in a Go map modelled as an association list: assignment
    overwrites the entry of an existing key. -/
def mapInsert {α β : Type} [DecidableEq α] : List (α × β) → α → β → List (α × β)
  | [], k, v => [(k, v)]
  | (k0, v0) :: rest, k, v =>
      if k0 = k then (k, v) :: rest else (k0, v0) :: mapInsert rest k v

/-- Lowercase hexadecimal digit character, as produced by the fmt %x verb. -/
def hexDigitChar (n : Nat) : Char :=
  if n < 10 then Char.ofNat (48 + n) else Char.ofNat (87 + n)

/-- Membership test for the character class [0-9a-f] used by the scanner
    regexes of archive.go. -/
def isHexDigitGo (c : Char) : Bool :=
  (('0' ≤ c) && (c ≤ '9')) || (('a' ≤ c) && (c ≤ 'f'))

/-- Numeric value of a lowercase hex digit character. -/
def hexVal (c : Char) : Nat :=
  if c ≤ '9' then c.toNat - 48 else c.toNat - 87

/-- Zero-padded w-digit lowercase hex rendering of the low w hex digits of
    a number, as produced by the fmt verb %8.8x on a uint32 (w = 8) and by
    the 64-hex rendering of a Hash (w = 64). -/
def hexN : Nat → Nat → GoStr
  | 0, _ => []
  | w + 1, n => hexN w (n / 16) ++ [hexDigitChar (n % 16)]

/-- Value of a hex digit string, most significant digit first; this is
    what strconv.ParseUint with base 16 computes on a hex string. -/
def parseHexVal (s : GoStr) : Nat :=
  s.foldl (fun a c => a * 16 + hexVal c) 0

/-- Strip an expected literal from the front of a string, returning the
    remainder on success. -/
def dropLit : GoStr → GoStr → Option GoStr
  | [], s => some s
  | _ :: _, [] => none
  | p :: ps, c :: cs => if p = c then dropLit ps cs else none

/-- Strip one expected character from the front of a string. -/
def dropChar (c : Char) : GoStr → Option GoStr
  | [] => none
  | c0 :: cs => if c0 = c then some cs else none

/-- Take exactly k characters of the class [0-9a-f] from the front of a
    string, returning them and the remainder. -/
def takeHexChars : Nat → GoStr → Option (GoStr × GoStr)
  | 0, s => some ([], s)
  | _ + 1, [] => none
  | k + 1, c :: cs =>
      if isHexDigitGo c then
        match takeHexChars k cs with
        | none => none
        | some (ds, rest) => some (c :: ds, rest)
      else none

/-- The five fixed artifact categories (archive.go, Categories). -/
def catHistory : GoStr := ("history").toList

/-- Category name for the ledger artifact kind. -/
def catLedger : GoStr := ("ledger").toList

/-- Category name for the transactions artifact kind. -/
def catTransactions : GoStr := ("transactions").toList

/-- Category name for the results artifact kind. -/
def catResults : GoStr := ("results").toList

/-- Category name for the scp artifact kind. -/
def catScp : GoStr := ("scp").toList

/-- Embedding of Categories (archive.go:37). -/
def Categories : List GoStr :=
  [catHistory, catLedger, catTransactions, catResults, catScp]

/-- Embedding of categoryExt (archive.go:41): history files use the json
    extension, all other categories use xdr.gz. -/
def categoryExt (n : GoStr) : GoStr :=
  if n = catHistory then ("json").toList else ("xdr.gz").toList

/-- Embedding of categoryRequired (archive.go:49): every category except
    scp is required. -/
def categoryRequired (n : GoStr) : Bool :=
  !(n = catScp : Bool)

/-- Embedding of rootHASPath (archive.go:24). -/
def rootHASPath : GoStr := (".well-known/stellar-history.json").toList

/-- Modelled from the spec: CheckpointPrefix(chk).Path() renders the three
    high bytes of the 32-bit checkpoint sequence as three two-hex-digit
    directory components aa/bb/cc (the type DirPrefix lives outside
    archive.go). -/
def checkpointPre (chk : Nat) : GoStr :=
  hexN 2 (chk / 16 ^ 6 % 256) ++
    ('/' :: (hexN 2 (chk / 16 ^ 4 % 256) ++ ('/' :: hexN 2 (chk / 16 ^ 2 % 256))))

/-- Embedding of CategoryCheckpointPath (archive.go:82):
    cat/aa/bb/cc/cat-xxxxxxxx.ext with xxxxxxxx the eight-hex-digit
    zero-padded checkpoint sequence. -/
def CategoryCheckpointPath (cat : GoStr) (chk : Nat) : GoStr :=
  cat ++ ('/' :: (checkpointPre chk ++
    ('/' :: (cat ++ ('-' :: (hexN 8 chk ++ ('.' :: categoryExt cat)))))))

/-- Modelled from the spec: HashPrefix(bucket).Path() renders the three
    high bytes of the 32-byte hash as three two-hex-digit directory
    components (the type DirPrefix lives outside archive.go). -/
def hashPre (h : Hash) : GoStr :=
  hexN 2 (h / 16 ^ 62 % 256) ++
    ('/' :: (hexN 2 (h / 16 ^ 60 % 256) ++ ('/' :: hexN 2 (h / 16 ^ 58 % 256))))

/-- Embedding of BucketPath (archive.go:88):
    bucket/aa/bb/cc/bucket-h.xdr.gz with h the 64-hex rendering of the
    hash. -/
def BucketPath (h : Hash) : GoStr :=
  ("bucket").toList ++ ('/' :: (hashPre h ++
    ('/' :: (("bucket-").toList ++ (hexN 64 h ++ (".xdr.gz").toList)))))

/-- Modelled from the regex built in ListCategoryCheckpoints
    (archive.go:138): the path grammar cat/aa/bb/cc/cat-xxxxxxxx.ext with
    every aa, bb, cc, xxxxxxxx in [0-9a-f], matched against the whole
    string (the source regex is end-anchored and is applied by searching;
    searching is modelled separately by searchCategoryCheckpoint). The
    returned number is the strconv.ParseUint value of the captured eight
    hex digits. -/
def parseCategoryCheckpointPath (cat : GoStr) (s : GoStr) : Option Nat :=
  (dropLit cat s).bind fun s =>
  (dropChar '/' s).bind fun s =>
  (takeHexChars 2 s).bind fun p =>
  (dropChar '/' p.2).bind fun s =>
  (takeHexChars 2 s).bind fun p =>
  (dropChar '/' p.2).bind fun s =>
  (takeHexChars 2 s).bind fun p =>
  (dropChar '/' p.2).bind fun s =>
  (dropLit cat s).bind fun s =>
  (dropChar '-' s).bind fun s =>
  (takeHexChars 8 s).bind fun p =>
  (dropChar '.' p.2).bind fun s =>
  (dropLit (categoryExt cat) s).bind fun s =>
  if s = [] then some (parseHexVal p.1) else none

/-- Modelled from regexp FindStringSubmatch: search for a match of the
    end-anchored category checkpoint regex at every start position. -/
def searchCategoryCheckpoint (cat : GoStr) : GoStr → Option Nat
  | [] => parseCategoryCheckpointPath cat []
  | c :: cs =>
      match parseCategoryCheckpointPath cat (c :: cs) with
      | some n => some n
      | none => searchCategoryCheckpoint cat cs

/-- Modelled from the regex built in ListAllBucketHashes (archive.go:123):
    the path grammar bucket/aa/bb/cc/bucket-h.xdr.gz with h sixty-four
    hex digits, matched against the whole string; the returned hash is
    the MustDecodeHash value of the capture. -/
def parseBucketPath (s : GoStr) : Option Hash :=
  (dropLit (("bucket").toList) s).bind fun s =>
  (dropChar '/' s).bind fun s =>
  (takeHexChars 2 s).bind fun p =>
  (dropChar '/' p.2).bind fun s =>
  (takeHexChars 2 s).bind fun p =>
  (dropChar '/' p.2).bind fun s =>
  (takeHexChars 2 s).bind fun p =>
  (dropChar '/' p.2).bind fun s =>
  (dropLit (("bucket-").toList) s).bind fun s =>
  (takeHexChars 64 s).bind fun p =>
  (dropLit ((".xdr.gz").toList) p.2).bind fun s =>
  if s = [] then some (parseHexVal p.1) else none

/-- Modelled from regexp FindStringSubmatch: search for a match of the
    end-anchored bucket regex at every start position. -/
def searchBucketHash : GoStr → Option Hash
  | [] => parseBucketPath []
  | c :: cs =>
      match parseBucketPath (c :: cs) with
      | some n => some n
      | none => searchBucketHash cs

/-- Modelled from the spec: a Range is a contiguous [low, high] interval
    of checkpoint sequence numbers (the type Range lives outside
    archive.go). -/
structure Range where
  low : Nat
  high : Nat
deriving DecidableEq

/-- Modelled from the spec: Clamp is intersection of intervals. -/
def Range.clamp (r o : Range) : Range :=
  ⟨max r.low o.low, min r.high o.high⟩

/-- Modelled from the spec: Checkpoints() enumerates, in ascending order,
    the checkpoint-boundary sequence numbers inside the interval; a
    boundary satisfies (seq+1) mod 64 = 0. -/
def Range.checkpoints (r : Range) : List Nat :=
  (List.range (r.high + 1)).filter
    (fun s => decide (r.low ≤ s) && ((s + 1) % 64 == 0))

/-- Modelled from the spec: Size() is the number of checkpoints in the
    range. -/
def Range.size (r : Range) : Nat :=
  r.checkpoints.length

/-- Modelled from the spec: RangePaths(rng) is the sequence of distinct
    hex directory paths covering the range (the function lives outside
    archive.go). -/
def RangePaths (r : Range) : List GoStr :=
  (r.checkpoints.map checkpointPre).dedup

/-- Modelled from the spec: a History Archive State is a manifest with a
    current ledger sequence and the list of live bucket hashes; the core
    consumes only Range() and Buckets() (the type lives outside
    archive.go). -/
structure HistoryArchiveState where
  currentLedger : Nat
  currentBuckets : List Hash
deriving DecidableEq

/-- Modelled from the spec: Buckets() lists the bucket hashes named by
    the manifest. -/
def HistoryArchiveState.buckets (h : HistoryArchiveState) : List Hash :=
  h.currentBuckets

/-- Modelled from the spec: the root manifest delimits the valid range of
    the archive, from the first checkpoint boundary up to the current
    ledger. -/
def HistoryArchiveState.range (h : HistoryArchiveState) : Range :=
  ⟨63, h.currentLedger⟩

/-- Stored file contents: either a decodable History Archive State
    document or an opaque byte blob (the engine treats non-manifest
    artifacts as opaque streams). -/
inductive Content where
  | has (h : HistoryArchiveState)
  | blob (data : Nat)
deriving DecidableEq

/-- Modelled from the spec: a storage backend is a finite path-to-content
    store; listFaults names the directory arguments for which ListFiles
    reports a transport error (the ArchiveBackend implementations live
    outside archive.go). -/
structure Backend where
  files : List (GoStr × Content)
  listFaults : List GoStr
deriving DecidableEq

/-- Modelled from the spec: GetFile returns the stored content or a
    NotFound error. -/
def Backend.getFile (b : Backend) (p : GoStr) : Except GoErr Content :=
  match mapLookup b.files p with
  | some c => .ok c
  | none => .error (("file not found: ").toList ++ p)

/-- Modelled from the spec: PutFile stores the content at the path,
    silently overwriting. -/
def Backend.putFile (b : Backend) (p : GoStr) (c : Content) : Backend :=
  { b with files := mapInsert b.files p c }

/-- Modelled from the spec: ListFiles returns the full paths stored under
    the given directory, or a transport error for faulted directories. -/
def Backend.listFiles (b : Backend) (dir : GoStr) : Except GoErr (List GoStr) :=
  if dir ∈ b.listFaults then
    .error (("list error: ").toList ++ dir)
  else
    .ok ((b.files.map Prod.fst).filter (fun p => (dir ++ [ '/' ]).isPrefixOf p))

/-- Embedding of the Archive handle (archive.go:53): a backend together
    with the accumulated scan state. The mutex is dropped: the concurrent
    operations are modelled as sequences of the atomic mutex-protected
    steps. -/
structure Archive where
  backend : Backend
  checkpointFiles : List (GoStr × List (Nat × Bool))
  allBuckets : List (Hash × Bool)
  referencedBuckets : List (Hash × Bool)
deriving DecidableEq

/-- Embedding of the archive initialisation done by Connect
    (archive.go:161): every category maps to an empty presence map, the
    bucket sets are empty. -/
def mkArchive (b : Backend) : Archive :=
  ⟨b, Categories.map (fun c => (c, [])), [], []⟩

/-- Embedding of GetPathHAS (archive.go:62): fetch the file and decode it
    as a manifest; a blob fails to decode. -/
def Archive.GetPathHAS (a : Archive) (p : GoStr) : Except GoErr HistoryArchiveState :=
  match a.backend.getFile p with
  | .error e => .error e
  | .ok (Content.has h) => .ok h
  | .ok (Content.blob _) => .error (("decode error: ").toList ++ p)

/-- Embedding of PutPathHAS (archive.go:73): encode the manifest and
    store it. -/
def Archive.PutPathHAS (a : Archive) (p : GoStr) (h : HistoryArchiveState) : Archive :=
  { a with backend := a.backend.putFile p (Content.has h) }

/-- Embedding of GetRootHAS (archive.go:93). -/
def Archive.GetRootHAS (a : Archive) : Except GoErr HistoryArchiveState :=
  a.GetPathHAS rootHASPath

/-- Embedding of GetCheckpointHAS (archive.go:97). -/
def Archive.GetCheckpointHAS (a : Archive) (chk : Nat) : Except GoErr HistoryArchiveState :=
  a.GetPathHAS (CategoryCheckpointPath catHistory chk)

/-- Embedding of NoteCheckpointFile (archive.go:376): store the given
    boolean under (cat, chk). -/
def Archive.NoteCheckpointFile (a : Archive) (cat : GoStr) (chk : Nat) (present : Bool) : Archive :=
  { a with
      checkpointFiles :=
        mapInsert a.checkpointFiles cat
          (mapInsert ((mapLookup a.checkpointFiles cat).getD []) chk present) }

/-- Embedding of NoteExistingBucket (archive.go:382). -/
def Archive.NoteExistingBucket (a : Archive) (h : Hash) : Archive :=
  { a with allBuckets := mapInsert a.allBuckets h true }

/-- Embedding of NoteReferencedBucket (archive.go:388). -/
def Archive.NoteReferencedBucket (a : Archive) (h : Hash) : Archive :=
  { a with referencedBuckets := mapInsert a.referencedBuckets h true }

/-- Embedding of ClearCachedInfo (archive.go:348): reset every presence
    map and both bucket sets. -/
def Archive.ClearCachedInfo (a : Archive) : Archive :=
  { a with checkpointFiles := Categories.map (fun c => (c, [])),
           allBuckets := [], referencedBuckets := [] }

/-- Embedding of CheckCheckpointFilesMissing (archive.go:474): for every
    category, the checkpoints of the range whose key is absent from the
    presence map (the stored boolean is not consulted). -/
def Archive.CheckCheckpointFilesMissing (a : Archive) (rng : Range) : List (GoStr × List Nat) :=
  Categories.map (fun cat =>
    (cat, rng.checkpoints.filter (fun ix =>
      (mapLookup ((mapLookup a.checkpointFiles cat).getD []) ix).isNone)))

/-- Embedding of the loop body of CheckBucketsMissing (archive.go:491):
    walk the referenced set and collect the keys absent from the
    all-buckets set. -/
def checkBucketsMissingLoop (allB : List (Hash × Bool)) :
    List (Hash × Bool) → List (Hash × Bool) → List (Hash × Bool)
  | [], missing => missing
  | (k, _) :: rest, missing =>
      checkBucketsMissingLoop allB rest
        (if (mapLookup allB k).isSome then missing else mapInsert missing k true)

/-- Embedding of CheckBucketsMissing (archive.go:491). -/
def Archive.CheckBucketsMissing (a : Archive) : List (Hash × Bool) :=
  checkBucketsMissingLoop a.allBuckets a.referencedBuckets []

/-- Outcome of ScanCheckpoints: besides returning, the Go code can block
    forever when a listing fails, because the worker then ranges over the
    nil channel returned by ListCategoryCheckpoints; the outcome carries
    the archive state reached so far. -/
inductive ScanCkOutcome where
  | ok (arch : Archive)
  | err (e : GoErr) (arch : Archive)
  | blocked (arch : Archive)
deriving DecidableEq

/-- Predicate selecting the blocked (never returns) outcome. -/
def ScanCkOutcome.isBlocked : ScanCkOutcome → Bool
  | .blocked _ => true
  | _ => false

/-- Archive state carried by a scan outcome. -/
def ScanCkOutcome.state : ScanCkOutcome → Archive
  | .ok a => a
  | .err _ a => a
  | .blocked a => a

/-- Embedding of the consumer loop of ListCategoryCheckpoints
    (archive.go:144-156) as used by a scan worker (archive.go:444-447):
    every listed path matching the category regex records presence. -/
def noteListedCheckpoints (cat : GoStr) (paths : List GoStr) (a : Archive) : Archive :=
  paths.foldl (fun a s =>
    match searchCategoryCheckpoint cat s with
    | some n => a.NoteCheckpointFile cat n true
    | none => a) a

/-- Embedding of the error drain of ScanCheckpoints (archive.go:458):
    return the first non-nil error sent on the errs channel. -/
def firstErr : List (Option GoErr) → Option GoErr
  | [] => none
  | some e :: _ => some e
  | none :: rest => firstErr rest

/-- Embedding of the request producer of ScanCheckpoints
    (archive.go:426-433): one request per category and range path. -/
def scanCheckpointReqs (rng : Range) : List (GoStr × GoStr) :=
  (Categories.map (fun cat => (RangePaths rng).map (fun pth => (cat, pth)))).flatten

/-- Embedding of the worker pool of ScanCheckpoints (archive.go:435-462),
    sequentialised: the requests are drained one by one; each listing
    outcome is sent on the errs channel. When a listing fails,
    ListCategoryCheckpoints returns a nil channel and the worker then
    blocks forever ranging over it, so the scan never returns: this is
    the blocked outcome. -/
def scanReqsLoop : Archive → List (GoStr × GoStr) → List (Option GoErr) → ScanCkOutcome
  | a, [], errs =>
      match firstErr errs with
      | some e => .err e a
      | none => .ok a
  | a, (cat, pth) :: rest, errs =>
      match a.backend.listFiles (cat ++ ('/' :: pth)) with
      | .error _ => .blocked a
      | .ok paths => scanReqsLoop (noteListedCheckpoints cat paths a) rest (errs ++ [none])

/-- Embedding of ScanCheckpoints (archive.go:399). -/
def Archive.ScanCheckpoints (a : Archive) (rng : Range) : ScanCkOutcome :=
  match a.GetRootHAS with
  | .error e => .err e a
  | .ok root => scanReqsLoop a (scanCheckpointReqs (rng.clamp root.range)) []

/-- Outcome of ScanBuckets: a listing failure is returned, while a fetch
    or decode failure of a checkpoint manifest aborts the process through
    log.Fatal. -/
inductive ScanBkOutcome where
  | ok (arch : Archive)
  | err (e : GoErr) (arch : Archive)
  | fatal (e : GoErr) (arch : Archive)
deriving DecidableEq

/-- Embedding of the all-bucket listing consumer of ScanBuckets
    (archive.go:543-549) with the regex filter of ListAllBucketHashes
    (archive.go:123-133). -/
def noteListedBuckets (paths : List GoStr) (a : Archive) : Archive :=
  paths.foldl (fun a s =>
    match searchBucketHash s with
    | some h => a.NoteExistingBucket h
    | none => a) a

/-- Embedding of the referenced-bucket workers of ScanBuckets
    (archive.go:561-579), sequentialised: fetch the manifest of every
    snapshotted checkpoint and record each referenced bucket; a fetch
    failure is fatal (log.Fatal, archive.go:570). -/
def scanReferencedLoop : Archive → List Nat → ScanBkOutcome
  | a, [] => .ok a
  | a, seq :: rest =>
      match a.GetCheckpointHAS seq with
      | .error e => .fatal e a
      | .ok has =>
          scanReferencedLoop (has.buckets.foldl (fun a b => a.NoteReferencedBucket b) a) rest

/-- Embedding of ScanBuckets (archive.go:504): snapshot the checkpoints
    whose history manifest is present, list the bucket namespace, then
    collect the referenced buckets. -/
def Archive.ScanBuckets (a : Archive) : ScanBkOutcome :=
  let seqs := (((mapLookup a.checkpointFiles catHistory).getD []).filter
    (fun p => p.2)).map Prod.fst
  match a.backend.listFiles (("bucket").toList) with
  | .error e => .err e a
  | .ok paths => scanReferencedLoop (noteListedBuckets paths a) seqs

/-- State threaded through a Mirror invocation: the shared bucket-fetch
    set, the destination archive, the ordered list of destination write
    paths performed so far, and the first fatal error if any. -/
structure MirrorSt where
  bucketFetch : List Hash
  dst : Archive
  puts : List GoStr
  err : Option GoErr
deriving DecidableEq

/-- Embedding of copyPath (archive.go:199): read the path from the
    source backend and write it to the destination backend; a read
    failure is recorded as the fatal error. -/
def copyPath (src : Archive) (s : MirrorSt) (p : GoStr) : MirrorSt :=
  if s.err.isSome then s else
  match src.backend.getFile p with
  | .error e => { s with err := some e }
  | .ok c =>
      { s with
          dst := { s.dst with backend := s.dst.backend.putFile p c },
          puts := s.puts ++ [p] }

/-- Embedding of the bucket loop of a Mirror worker (archive.go:252-266):
    the mutex-protected test-and-insert on the shared bucketFetch set,
    followed by the copy when the hash was newly inserted. -/
def mirrorBuckets (src : Archive) : List Hash → MirrorSt → MirrorSt
  | [], s => s
  | b :: rest, s =>
      if s.err.isSome then s
      else if b ∈ s.bucketFetch then mirrorBuckets src rest s
      else
        mirrorBuckets src rest
          (copyPath src { s with bucketFetch := b :: s.bucketFetch } (BucketPath b))

/-- Embedding of the destination checkpoint-manifest write of a Mirror
    worker, dst.PutCheckpointHAS(ix, has) (archive.go:267), recorded in
    the write trace. -/
def mirrorPutCheckpointHAS (ix : Nat) (has : HistoryArchiveState) (s : MirrorSt) : MirrorSt :=
  if s.err.isSome then s else
  { s with
      dst := s.dst.PutPathHAS (CategoryCheckpointPath catHistory ix) has,
      puts := s.puts ++ [CategoryCheckpointPath catHistory ix] }

/-- Embedding of the per-checkpoint body of a Mirror worker
    (archive.go:243-277): fetch the source manifest, copy its new
    buckets, write the destination checkpoint manifest, then copy every
    category file; each failure is fatal (log.Fatal). -/
def mirrorCheckpoint (src : Archive) (ix : Nat) (s : MirrorSt) : MirrorSt :=
  if s.err.isSome then s else
  match src.GetCheckpointHAS ix with
  | .error e => { s with err := some e }
  | .ok has =>
      Categories.foldl (fun s cat => copyPath src s (CategoryCheckpointPath cat ix))
        (mirrorPutCheckpointHAS ix has (mirrorBuckets src has.buckets s))

/-- Sequentialised checkpoint loop of Mirror. -/
def mirrorLoop (src : Archive) : List Nat → MirrorSt → MirrorSt
  | [], s => s
  | ix :: rest, s => mirrorLoop src rest (mirrorCheckpoint src ix s)

/-- Embedding of the final root-manifest write of Mirror,
    dst.PutRootHAS(rootHAS) (archive.go:284), performed only when no
    worker aborted the process. -/
def mirrorFinish (root : HistoryArchiveState) (s : MirrorSt) : MirrorSt :=
  if s.err.isSome then s
  else
    { s with
        dst := s.dst.PutPathHAS rootHASPath root,
        puts := s.puts ++ [rootHASPath] }

/-- Embedding of Mirror (archive.go:207): fetch the source root manifest,
    clamp the range, process every checkpoint, and finally, after all
    workers have joined, write the destination root manifest
    (archive.go:283-284). -/
def Mirror (src dst : Archive) (rng : Range) : MirrorSt :=
  match src.GetRootHAS with
  | .error e => ⟨[], dst, [], some e⟩
  | .ok root =>
      mirrorFinish root (mirrorLoop src (rng.clamp root.range).checkpoints ⟨[], dst, [], none⟩)

/-- Shared state of the concurrent bucket deduplication of Mirror: the
    bucketFetch set and the ordered copyPath invocations for buckets. -/
structure BucketFetchSt where
  bucketFetch : List Hash
  copies : List Hash
deriving DecidableEq

/-- Model of one mutex-protected step of a Mirror worker handling one
    referenced bucket (archive.go:252-266): under the bucketFetchMutex
    the worker tests membership and inserts on absence; the copy of
    BucketPath(b) is invoked exactly when the insert happened. A
    concurrent Mirror execution is an arbitrary interleaving of these
    atomic steps. -/
def mirrorBucketStep (s : BucketFetchSt) (b : Hash) : BucketFetchSt :=
  if b ∈ s.bucketFetch then s
  else ⟨b :: s.bucketFetch, s.copies ++ [b]⟩

/-- Run of the bucket deduplication over an interleaved sequence of
    referenced buckets, starting from the empty bucketFetch map created
    at the beginning of Mirror (archive.go:219). -/
def mirrorBucketRun (bs : List Hash) : BucketFetchSt :=
  bs.foldl mirrorBucketStep ⟨[], []⟩

/-- Result of the missing-checkpoint-file copy loop of Repair
    (archive.go:305-317). -/
structure CopyMissingRes where
  dst : Archive
  puts : List GoStr
  err : Option GoErr
  repairedHistory : Bool
deriving DecidableEq

/-- Flatten the per-category missing map into (category, checkpoint)
    pairs, preserving the iteration order. -/
def missingPairs (m : List (GoStr × List Nat)) : List (GoStr × Nat) :=
  (m.map (fun p => p.2.map (fun chk => (p.1, chk)))).flatten

/-- Embedding of the missing-checkpoint-file copy loop of Repair
    (archive.go:305-317): copy each missing category path from source to
    destination, noting whether any history manifest was restored; a
    copy failure is fatal (log.Fatal, archive.go:311). -/
def repairFilesLoop (src : Archive) :
    List (GoStr × Nat) → Archive → List GoStr → Bool → CopyMissingRes
  | [], dst, puts, rh => ⟨dst, puts, none, rh⟩
  | (cat, chk) :: rest, dst, puts, rh =>
      match src.backend.getFile (CategoryCheckpointPath cat chk) with
      | .error e => ⟨dst, puts, some e, rh⟩
      | .ok c =>
          repairFilesLoop src rest
            { dst with backend := dst.backend.putFile (CategoryCheckpointPath cat chk) c }
            (puts ++ [CategoryCheckpointPath cat chk])
            (rh || (cat == catHistory))

/-- Embedding of the missing-bucket copy loop of Repair
    (archive.go:337-343): copy each missing bucket path; a copy failure
    is fatal (log.Fatal, archive.go:341). -/
def repairBucketsLoop (src : Archive) :
    List Hash → Archive → List GoStr → Archive × List GoStr × Option GoErr
  | [], dst, puts => (dst, puts, none)
  | h :: rest, dst, puts =>
      match src.backend.getFile (BucketPath h) with
      | .error e => (dst, puts, some e)
      | .ok c =>
          repairBucketsLoop src rest
            { dst with backend := dst.backend.putFile (BucketPath h) c }
            (puts ++ [BucketPath h])

/-- Result of a Repair invocation: the destination archive, the ordered
    destination writes, the first error if any, and whether the
    invocation blocked forever inside a checkpoint scan. -/
structure RepairRes where
  dst : Archive
  puts : List GoStr
  err : Option GoErr
  blocked : Bool
deriving DecidableEq

/-- Embedding of the bucket phase of Repair (archive.go:328-345): scan
    the buckets, compute the missing set and copy it. -/
def repairBucketPhase (src : Archive) (d : Archive) (puts : List GoStr) : RepairRes :=
  match d.ScanBuckets with
  | .err e d2 => ⟨d2, puts, some e, false⟩
  | .fatal e d2 => ⟨d2, puts, some e, false⟩
  | .ok d2 =>
      match repairBucketsLoop src (d2.CheckBucketsMissing.map Prod.fst) d2 puts with
      | (d3, puts2, e) => ⟨d3, puts2, e, false⟩

/-- Embedding of Repair (archive.go:289): clamp the range to the
    destination root manifest, scan the destination checkpoints, copy the
    missing category files, re-scan when history manifests were restored,
    then scan the buckets and copy the missing ones. The destination root
    manifest is never rewritten. -/
def Repair (src dst : Archive) (rng : Range) : RepairRes :=
  match dst.GetRootHAS with
  | .error e => ⟨dst, [], some e, false⟩
  | .ok state =>
      let rng2 := rng.clamp state.range
      match dst.ScanCheckpoints rng2 with
      | .blocked d => ⟨d, [], none, true⟩
      | .err e d => ⟨d, [], some e, false⟩
      | .ok d =>
          match repairFilesLoop src (missingPairs (d.CheckCheckpointFilesMissing rng2)) d [] false with
          | ⟨d1, puts1, some e, _⟩ => ⟨d1, puts1, some e, false⟩
          | ⟨d1, puts1, none, true⟩ =>
              match d1.ClearCachedInfo.ScanCheckpoints rng2 with
              | .blocked d2 => ⟨d2, puts1, none, true⟩
              | .err e d2 => ⟨d2, puts1, some e, false⟩
              | .ok d2 => repairBucketPhase src d2 puts1
          | ⟨d1, puts1, none, false⟩ => repairBucketPhase src d1 puts1

/-- Result of a ReportMissing invocation: the computed missing sets, the
    per-category missing lists actually logged, the incompleteness flag,
    and the backend put and list operations performed (ReportMissing
    performs none). -/
structure ReportRes where
  err : Option GoErr
  missingChk : List (GoStr × List Nat)
  loggedMissing : List (GoStr × List Nat)
  missingCheckpoints : Bool
  missingBkts : List Hash
  puts : List GoStr
  lists : List GoStr
deriving DecidableEq

/-- Embedding of ReportMissing (archive.go:587): clamp the range to the
    root manifest, read the missing checkpoint files and missing buckets
    from the accumulated in-memory state, and log the non-empty missing
    lists of the required categories; the scp category is skipped
    (archive.go:603). The body performs no listing and no write: the
    puts and lists traces record every backend Put and List operation the
    function executes, and both are empty. -/
def Archive.ReportMissing (a : Archive) (rng : Range) : ReportRes :=
  match a.GetRootHAS with
  | .error e => ⟨some e, [], [], false, [], [], []⟩
  | .ok state =>
      let rng2 := rng.clamp state.range
      let mc := a.CheckCheckpointFilesMissing rng2
      let mb := a.CheckBucketsMissing.map Prod.fst
      let logged := mc.filter (fun p => categoryRequired p.1 && !p.2.isEmpty)
      ⟨none, mc, logged, !logged.isEmpty, mb, [], []⟩

/-- Modelled from net/url: the relevant components of a successfully
    parsed URL (url.Parse is standard-library code). -/
structure ParsedURL where
  scheme : GoStr
  host : GoStr
  upath : GoStr
deriving DecidableEq

/-- Embedding of ConnectOptions (archive.go:27). -/
structure ConnectOptions where
  s3Region : GoStr
deriving DecidableEq

/-- Modelled from the spec: descriptors of the three backend
    constructors MakeS3Backend, MakeFsBackend and MakeMockBackend, whose
    definitions live outside archive.go. -/
inductive BackendKind where
  | s3 (bucket : GoStr) (pth : GoStr) (opts : ConnectOptions)
  | fs (pth : GoStr)
  | mock
deriving DecidableEq

/-- Result of Connect: the backend selected for the archive handle (none
    when the backend field is left unset) and the returned error. -/
structure ConnectRes where
  backend : Option BackendKind
  err : Option GoErr
deriving DecidableEq

/-- Strip one leading slash, as the s3 branch of Connect does
    (archive.go:176-178). -/
def stripLeadingSlash (p : GoStr) : GoStr :=
  match p with
  | '/' :: rest => rest
  | other => other

/-- Modelled from path.Join on two components: empty components vanish
    and a duplicate separator is cleaned. -/
def pathJoin2 (a b : GoStr) : GoStr :=
  if a = [] then b
  else if b = [] then a
  else a ++ ('/' :: stripLeadingSlash b)

/-- Embedding of the scheme dispatch of Connect (archive.go:160-189),
    applied to an already parsed URL: the three recognised schemes
    instantiate their backend and return no error; any other scheme
    leaves the backend unset and returns the unknown-URL-scheme error,
    whose message quotes the scheme. -/
def Connect (u : ParsedURL) (opts : ConnectOptions) : ConnectRes :=
  if u.scheme = ("s3").toList then
    ⟨some (.s3 u.host (stripLeadingSlash u.upath) opts), none⟩
  else if u.scheme = ("file").toList then
    ⟨some (.fs (pathJoin2 u.host u.upath)), none⟩
  else if u.scheme = ("mock").toList then
    ⟨some .mock, none⟩
  else
    ⟨none, some ((("unknown URL scheme: ").toList ++
      (Char.ofNat 39 :: (u.scheme ++ [Char.ofNat 39]))))⟩

/-- Concrete bucket hash used by the witness archives. -/
def h1Bucket : Hash := 1

/-- Witness source archive: complete over checkpoint 0x3f, with a root
    manifest, a history manifest referencing one bucket, all five
    category files, and the bucket file. -/
def srcComplete : Archive :=
  mkArchive
    ⟨[(rootHASPath, Content.has ⟨63, [h1Bucket]⟩),
      (CategoryCheckpointPath catHistory 63, Content.has ⟨63, [h1Bucket]⟩),
      (CategoryCheckpointPath catLedger 63, Content.blob 0),
      (CategoryCheckpointPath catTransactions 63, Content.blob 0),
      (CategoryCheckpointPath catResults 63, Content.blob 0),
      (CategoryCheckpointPath catScp 63, Content.blob 0),
      (BucketPath h1Bucket, Content.blob 1)], []⟩

/-- Witness destination archive: an empty backend. -/
def dstEmpty : Archive := mkArchive ⟨[], []⟩

/-- Witness range holding exactly checkpoint 0x3f. -/
def rng63 : Range := ⟨63, 63⟩

/-- Witness archive for ReportMissing: the backend holds the root
    manifest and the history file of checkpoint 0x3f, but nothing has
    been scanned into the in-memory state. -/
def reportCexArchive : Archive :=
  mkArchive
    ⟨[(rootHASPath, Content.has ⟨63, []⟩),
      (CategoryCheckpointPath catHistory 63, Content.has ⟨63, []⟩)], []⟩

/-- Witness archive whose backend fails the history listing of the
    directory covering checkpoint 0x3f. -/
def faultyScanArchive : Archive :=
  mkArchive
    ⟨[(rootHASPath, Content.has ⟨63, []⟩)],
      [catHistory ++ ('/' :: checkpointPre 63)]⟩

/-- Witness archive whose in-memory state records every required
    category as present at checkpoint 0x3f, while scp was never
    observed. -/
def scpOnlyMissingArchive : Archive :=
  ((((mkArchive ⟨[(rootHASPath, Content.has ⟨63, []⟩)], []⟩).NoteCheckpointFile
      catHistory 63 true).NoteCheckpointFile
      catLedger 63 true).NoteCheckpointFile
      catTransactions 63 true).NoteCheckpointFile
      catResults 63 true

theorem mapLookup_insert {α β : Type} [DecidableEq α] (m : List (α × β)) (k a : α) (v : β) :
    mapLookup (mapInsert m k v) a = if k = a then some v else mapLookup m a := by
  induction m with
  | nil => simp [mapInsert, mapLookup]
  | cons kv rest ih =>
      obtain ⟨k0, v0⟩ := kv
      by_cases h0 : k0 = k
      · subst h0
        by_cases h1 : k0 = a <;> simp [mapInsert, mapLookup, h1]
      · by_cases h1 : k0 = a
        · have hk : ¬ k = a := fun h => h0 (h1.trans h.symm)
          have hak : ¬ a = k := fun h => hk h.symm
          simp [mapInsert, mapLookup, h0, h1, hk, hak]
        · simp [mapInsert, mapLookup, h0, h1, ih]

theorem hexDigitChar_hex : ∀ d, d < 16 → isHexDigitGo (hexDigitChar d) = true := by
  decide

theorem hexVal_hexDigitChar : ∀ d, d < 16 → hexVal (hexDigitChar d) = d := by
  decide

theorem hexN_length (w : Nat) : ∀ n, (hexN w n).length = w := by
  induction w with
  | zero => intro n; rfl
  | succ w ih => intro n; simp [hexN, ih]

theorem hexN_hex (w : Nat) : ∀ n, ∀ c ∈ hexN w n, isHexDigitGo c = true := by
  induction w with
  | zero => intro n c hc; simp [hexN] at hc
  | succ w ih =>
      intro n c hc
      rw [hexN] at hc
      rcases List.mem_append.mp hc with h | h
      · exact ih _ c h
      · rcases List.mem_singleton.mp h with rfl
        exact hexDigitChar_hex _ (Nat.mod_lt _ (by norm_num))

theorem takeHexChars_pre (ds : GoStr) (r : GoStr)
    (h : ∀ c ∈ ds, isHexDigitGo c = true) :
    takeHexChars ds.length (ds ++ r) = some (ds, r) := by
  induction ds with
  | nil => rfl
  | cons c cs ih =>
      have hc : isHexDigitGo c = true := h c (List.mem_cons_self c cs)
      have hrest : ∀ x ∈ cs, isHexDigitGo x = true :=
        fun x hx => h x (List.mem_cons_of_mem c hx)
      simp [takeHexChars, hc, ih hrest]

theorem takeHexChars_hexN (k n : Nat) (r : GoStr) :
    takeHexChars k (hexN k n ++ r) = some (hexN k n, r) := by
  have := takeHexChars_pre (hexN k n) r (hexN_hex k n)
  rwa [hexN_length] at this

theorem dropLit_append (p r : GoStr) : dropLit p (p ++ r) = some r := by
  induction p with
  | nil => rfl
  | cons c cs ih => simp [dropLit, ih]

theorem dropLit_self (p : GoStr) : dropLit p p = some [] := by
  have := dropLit_append p []
  rwa [List.append_nil] at this

theorem dropChar_cons (c : Char) (r : GoStr) : dropChar c (c :: r) = some r := by
  simp [dropChar]

theorem mod_sixteen_pow_succ (w n : Nat) :
    n % 16 ^ (w + 1) = 16 * (n / 16 % 16 ^ w) + n % 16 := by
  have h16 : (16 : Nat) ^ (w + 1) = 16 * 16 ^ w := by
    rw [pow_succ]; ring
  have hdvd : (16 : Nat) ∣ 16 ^ (w + 1) := ⟨16 ^ w, h16⟩
  have h1 : n % 16 ^ (w + 1) % 16 = n % 16 := Nat.mod_mod_of_dvd n hdvd
  have h2 : n % 16 ^ (w + 1) / 16 = n / 16 % 16 ^ w := by
    rw [h16]; exact Nat.mod_mul_right_div_self n 16 (16 ^ w)
  have h3 := Nat.div_add_mod (n % 16 ^ (w + 1)) 16
  omega

theorem foldl_hexVal_hexN (w : Nat) :
    ∀ n acc, (hexN w n).foldl (fun a c => a * 16 + hexVal c) acc
      = acc * 16 ^ w + n % 16 ^ w := by
  induction w with
  | zero => intro n acc; simp [hexN, Nat.mod_one]
  | succ w ih =>
      intro n acc
      rw [hexN, List.foldl_append, ih]
      simp only [List.foldl]
      rw [hexVal_hexDigitChar _ (Nat.mod_lt _ (by norm_num))]
      rw [mod_sixteen_pow_succ]
      ring

theorem parseHexVal_hexN (w n : Nat) : parseHexVal (hexN w n) = n % 16 ^ w := by
  have := foldl_hexVal_hexN w n 0
  simpa [parseHexVal] using this

/-- C9: for every category in the fixed category set and every 32-bit
    sequence number, the path produced by CategoryCheckpointPath matches
    the scanner regex grammar for that category, and parsing it recovers
    exactly the sequence number; the filename embeds the sequence as
    eight zero-padded lowercase hex digits, with extension json for
    history and xdr.gz otherwise (the extension choice is the definition
    of categoryExt, used by both sides). -/
theorem categoryCheckpointPath_parse_roundtrip (cat : GoStr) (chk : Nat)
    (hcat : cat ∈ Categories) (hchk : chk < 2 ^ 32) :
    parseCategoryCheckpointPath cat (CategoryCheckpointPath cat chk) = some chk := by
  have hmod : chk % 16 ^ 8 = chk := Nat.mod_eq_of_lt (by norm_num; omega)
  rw [CategoryCheckpointPath, checkpointPre, parseCategoryCheckpointPath]
  simp only [List.append_assoc, List.cons_append]
  simp only [dropLit_append, dropChar_cons, takeHexChars_hexN, dropLit_self,
    Option.some_bind]
  rw [parseHexVal_hexN, hmod]
  simp

/-- Witness: the roundtrip at the ledger category and sequence
    0x01234567. -/
theorem categoryCheckpointPath_parse_roundtrip_witness :
    catLedger ∈ Categories ∧ 19088743 < 2 ^ 32 ∧
      parseCategoryCheckpointPath catLedger
        (CategoryCheckpointPath catLedger 19088743) = some 19088743 :=
  ⟨by decide, by norm_num,
    categoryCheckpointPath_parse_roundtrip catLedger 19088743 (by decide) (by norm_num)⟩

theorem checkBucketsMissingLoop_lookup (allB : List (Hash × Bool)) (h : Hash) :
    ∀ (refs missing : List (Hash × Bool)),
      (mapLookup (checkBucketsMissingLoop allB refs missing) h).isSome
        = ((mapLookup missing h).isSome
            || ((mapLookup refs h).isSome && !(mapLookup allB h).isSome)) := by
  intro refs
  induction refs with
  | nil => intro missing; simp [checkBucketsMissingLoop, mapLookup]
  | cons kv rest ih =>
      intro missing
      obtain ⟨k, v⟩ := kv
      rw [checkBucketsMissingLoop, ih]
      by_cases hk : k = h
      · subst hk
        by_cases hb : (mapLookup allB k).isSome
        · simp [hb, mapLookup]
        · simp only [hb, if_false]
          simp [mapLookup_insert, mapLookup, hb]
      · by_cases hb : (mapLookup allB k).isSome
        · simp [hb, mapLookup, hk]
        · simp only [hb, if_false]
          simp [mapLookup_insert, mapLookup, hk]

/-- C1: CheckBucketsMissing returns exactly the set difference of the
    referenced buckets and the observed buckets: a hash is a key of the
    result precisely when it is a key of referencedBuckets and not a key
    of allBuckets. -/
theorem checkBucketsMissing_iff (a : Archive) (h : Hash) :
    (mapLookup a.CheckBucketsMissing h).isSome = true ↔
      ((mapLookup a.referencedBuckets h).isSome = true ∧
        (mapLookup a.allBuckets h).isSome = false) := by
  rw [Archive.CheckBucketsMissing, checkBucketsMissingLoop_lookup]
  simp [mapLookup]

theorem mirrorBucketStep_inv (b : Hash) (s : BucketFetchSt) (c : Hash)
    (h : s.copies.count b ≤ if b ∈ s.bucketFetch then 1 else 0) :
    (mirrorBucketStep s c).copies.count b
      ≤ if b ∈ (mirrorBucketStep s c).bucketFetch then 1 else 0 := by
  rw [mirrorBucketStep]
  by_cases hc : c ∈ s.bucketFetch
  · simpa [hc] using h
  · by_cases hbc : b = c
    · subst hbc
      have h0 : s.copies.count b = 0 := by simpa [hc] using h
      simp [hc, List.count_append, h0]
    · simp only [hc, if_false]
      simp only [List.count_append]
      have hc1 : List.count b [c] = 0 := by
        simp [List.count_singleton]
        exact fun he => hbc he.symm
      rw [hc1]
      have hmem : (b ∈ c :: s.bucketFetch) = (b ∈ s.bucketFetch) := by
        simp [List.mem_cons, hbc]
      simpa [hmem] using h

theorem mirrorBucketFold_count (b : Hash) :
    ∀ (bs : List Hash) (s : BucketFetchSt),
      s.copies.count b ≤ (if b ∈ s.bucketFetch then 1 else 0) →
      ((bs.foldl mirrorBucketStep s).copies.count b) ≤ 1 := by
  intro bs
  induction bs with
  | nil =>
      intro s h
      simp only [List.foldl]
      exact le_trans h (by split <;> omega)
  | cons c rest ih =>
      intro s h
      simp only [List.foldl]
      exact ih (mirrorBucketStep s c) (mirrorBucketStep_inv b s c h)

/-- C2: within a single Mirror invocation, modelled as an arbitrary
    interleaving of the mutex-protected test-and-insert steps of the
    workers on the shared bucketFetch set, copyPath is invoked at most
    once per distinct bucket hash: the copy happens only on the step that
    first inserts the hash. -/
theorem mirror_bucket_copy_at_most_once (bs : List Hash) (b : Hash) :
    (mirrorBucketRun bs).copies.count b ≤ 1 := by
  apply mirrorBucketFold_count b bs
  simp

theorem mapLookup_map_self {β : Type} (f : GoStr → β) :
    ∀ (l : List GoStr) (cat : GoStr), cat ∈ l →
      mapLookup (l.map (fun c => (c, f c))) cat = some (f cat) := by
  intro l
  induction l with
  | nil => intro cat hc; cases hc
  | cons c cs ih =>
      intro cat hc
      by_cases h : c = cat
      · subst h; simp [mapLookup]
      · have : cat ∈ cs := by
          rcases List.mem_cons.mp hc with he | hm
          · exact absurd he.symm h
          · exact hm
        simp [mapLookup, h, ih cat this]

/-- C10: CheckCheckpointFilesMissing tests only key existence, not the
    stored boolean: after NoteCheckpointFile(cat, chk, false) the
    checkpoint chk is not listed as missing for cat, and the whole
    missing map is the same as if the file had been noted present. -/
theorem checkCheckpointFilesMissing_ignores_stored_bool
    (a : Archive) (rng : Range) (cat : GoStr) (chk : Nat)
    (hcat : cat ∈ Categories) :
    (∀ l, mapLookup ((a.NoteCheckpointFile cat chk false).CheckCheckpointFilesMissing rng) cat
        = some l → chk ∉ l) ∧
    (a.NoteCheckpointFile cat chk false).CheckCheckpointFilesMissing rng
      = (a.NoteCheckpointFile cat chk true).CheckCheckpointFilesMissing rng := by
  constructor
  · intro l hl
    rw [Archive.CheckCheckpointFilesMissing,
      mapLookup_map_self _ Categories cat hcat] at hl
    have hl2 := (Option.some.injEq _ _).mp hl
    intro hmem
    rw [← hl2] at hmem
    have := List.of_mem_filter hmem
    rw [Archive.NoteCheckpointFile] at this
    simp only [mapLookup_insert, if_pos rfl, Option.getD_some] at this
    simp [mapLookup_insert] at this
  · rw [Archive.CheckCheckpointFilesMissing, Archive.CheckCheckpointFilesMissing]
    apply List.map_congr_left
    intro c _
    congr 1
    apply List.filter_congr
    intro ix _
    rw [Archive.NoteCheckpointFile, Archive.NoteCheckpointFile]
    by_cases hc : cat = c
    · subst hc
      simp only [mapLookup_insert, if_pos rfl, Option.getD_some]
      by_cases hx : chk = ix <;> simp [mapLookup_insert, hx]
    · simp [mapLookup_insert, hc]

/-- Witness: noting a file with an explicit false at checkpoint 0x3f
    keeps it out of the missing list, exactly as noting it present. -/
theorem checkCheckpointFilesMissing_ignores_stored_bool_witness :
    catLedger ∈ Categories ∧
    mapLookup ((dstEmpty.NoteCheckpointFile catLedger 63 false).CheckCheckpointFilesMissing rng63)
      catLedger = some [] ∧
    (63 ∉ ([] : List Nat)) ∧
    (dstEmpty.NoteCheckpointFile catLedger 63 false).CheckCheckpointFilesMissing rng63
      = (dstEmpty.NoteCheckpointFile catLedger 63 true).CheckCheckpointFilesMissing rng63 := by
  have h := checkCheckpointFilesMissing_ignores_stored_bool dstEmpty rng63 catLedger 63 (by decide)
  exact ⟨by decide, by decide, h.1 [] (by decide), h.2⟩

/-- C7: Connect fails on every unrecognised scheme with an error that
    quotes the scheme and leaves the backend unset, while the three
    recognised schemes of a parseable URL instantiate their backend and
    return no error. -/
theorem connect_scheme_spec (u : ParsedURL) (opts : ConnectOptions) :
    (u.scheme ∉ ([("s3").toList, ("file").toList, ("mock").toList] : List GoStr) →
      (Connect u opts).backend = none ∧
      ∃ pre suf, (Connect u opts).err = some (pre ++ (u.scheme ++ suf))) ∧
    (u.scheme ∈ ([("s3").toList, ("file").toList, ("mock").toList] : List GoStr) →
      (Connect u opts).err = none) := by
  constructor
  · intro h
    have h1 : ¬ u.scheme = ("s3").toList := fun he => h (by simp [he])
    have h2 : ¬ u.scheme = ("file").toList := fun he => h (by simp [he])
    have h3 : ¬ u.scheme = ("mock").toList := fun he => h (by simp [he])
    refine ⟨by rw [Connect, if_neg h1, if_neg h2, if_neg h3],
      ("unknown URL scheme: ").toList ++ [Char.ofNat 39], [Char.ofNat 39], ?_⟩
    rw [Connect, if_neg h1, if_neg h2, if_neg h3]
    simp
  · intro h
    rcases List.mem_cons.mp h with h1 | h
    · simp [Connect, h1]
    rcases List.mem_cons.mp h with h1 | h
    · simp [Connect, h1]
    rcases List.mem_cons.mp h with h1 | h
    · simp [Connect, h1]
    · cases h

/-- Witness: the quux scheme fails with the quoting error and no
    backend, while the mock scheme connects without error. -/
theorem connect_scheme_spec_witness :
    (Connect ⟨("quux").toList, ("x").toList, []⟩ ⟨[]⟩).backend = none ∧
    (∃ pre suf, (Connect ⟨("quux").toList, ("x").toList, []⟩ ⟨[]⟩).err
      = some (pre ++ (("quux").toList ++ suf))) ∧
    (Connect ⟨("mock").toList, [], []⟩ ⟨[]⟩).err = none := by
  have h := connect_scheme_spec ⟨("quux").toList, ("x").toList, []⟩ ⟨[]⟩
  have hm := connect_scheme_spec ⟨("mock").toList, [], []⟩ ⟨[]⟩
  exact ⟨(h.1 (by decide)).1, (h.1 (by decide)).2, hm.2 (by decide)⟩

theorem cons_append_ne_root (c : Char) (l r : GoStr) (hc : ¬ c = '.') :
    ¬ ((c :: l) ++ r = rootHASPath) := by
  intro h
  rw [show rootHASPath = '.' :: ("well-known/stellar-history.json").toList from rfl] at h
  rw [List.cons_append] at h
  injection h with h1 _
  exact hc h1

theorem CategoryCheckpointPath_ne_root (cat : GoStr) (hcat : cat ∈ Categories) (chk : Nat) :
    ¬ CategoryCheckpointPath cat chk = rootHASPath := by
  fin_cases hcat
  · rw [CategoryCheckpointPath,
      show catHistory = 'h' :: ("istory").toList from rfl]
    exact cons_append_ne_root _ _ _ (by decide)
  · rw [CategoryCheckpointPath,
      show catLedger = 'l' :: ("edger").toList from rfl]
    exact cons_append_ne_root _ _ _ (by decide)
  · rw [CategoryCheckpointPath,
      show catTransactions = 't' :: ("ransactions").toList from rfl]
    exact cons_append_ne_root _ _ _ (by decide)
  · rw [CategoryCheckpointPath,
      show catResults = 'r' :: ("esults").toList from rfl]
    exact cons_append_ne_root _ _ _ (by decide)
  · rw [CategoryCheckpointPath,
      show catScp = 's' :: ("cp").toList from rfl]
    exact cons_append_ne_root _ _ _ (by decide)

theorem BucketPath_ne_root (h : Hash) : ¬ BucketPath h = rootHASPath := by
  rw [BucketPath, show ("bucket").toList = 'b' :: ("ucket").toList from rfl]
  exact cons_append_ne_root _ _ _ (by decide)

theorem copyPath_puts (src : Archive) (s : MirrorSt) (p q : GoStr)
    (hq : q ∈ (copyPath src s p).puts) : q ∈ s.puts ∨ q = p := by
  rw [copyPath] at hq
  by_cases he : s.err.isSome
  · rw [if_pos he] at hq; exact Or.inl hq
  · rw [if_neg he] at hq
    cases hgf : src.backend.getFile p with
    | error e => rw [hgf] at hq; exact Or.inl hq
    | ok c =>
        rw [hgf] at hq
        rcases List.mem_append.mp hq with h | h
        · exact Or.inl h
        · exact Or.inr (List.mem_singleton.mp h)

theorem mirrorBuckets_puts (src : Archive) :
    ∀ (bs : List Hash) (s : MirrorSt) (q : GoStr),
      q ∈ (mirrorBuckets src bs s).puts →
      q ∈ s.puts ∨ ∃ h2, q = BucketPath h2 := by
  intro bs
  induction bs with
  | nil => intro s q hq; exact Or.inl hq
  | cons b rest ih =>
      intro s q hq
      rw [mirrorBuckets] at hq
      by_cases he : s.err.isSome
      · rw [if_pos he] at hq; exact Or.inl hq
      · rw [if_neg he] at hq
        by_cases hb : b ∈ s.bucketFetch
        · rw [if_pos hb] at hq
          exact ih s q hq
        · rw [if_neg hb] at hq
          rcases ih _ q hq with h | h
          · rcases copyPath_puts src _ _ q h with h2 | h2
            · exact Or.inl h2
            · exact Or.inr ⟨b, h2⟩
          · exact Or.inr h

theorem mirrorPut_puts (ix : Nat) (has : HistoryArchiveState) (s : MirrorSt) (q : GoStr)
    (hq : q ∈ (mirrorPutCheckpointHAS ix has s).puts) :
    q ∈ s.puts ∨ q = CategoryCheckpointPath catHistory ix := by
  rw [mirrorPutCheckpointHAS] at hq
  by_cases he : s.err.isSome
  · rw [if_pos he] at hq; exact Or.inl hq
  · rw [if_neg he] at hq
    rcases List.mem_append.mp hq with h | h
    · exact Or.inl h
    · exact Or.inr (List.mem_singleton.mp h)

theorem categoriesFold_puts (src : Archive) (ix : Nat) :
    ∀ (cats : List GoStr) (s : MirrorSt) (q : GoStr),
      q ∈ (cats.foldl (fun s cat => copyPath src s (CategoryCheckpointPath cat ix)) s).puts →
      q ∈ s.puts ∨ ∃ cat ∈ cats, q = CategoryCheckpointPath cat ix := by
  intro cats
  induction cats with
  | nil => intro s q hq; exact Or.inl hq
  | cons cat rest ih =>
      intro s q hq
      simp only [List.foldl] at hq
      rcases ih _ q hq with h | ⟨cat2, hc2, he⟩
      · rcases copyPath_puts src s _ q h with h2 | h2
        · exact Or.inl h2
        · exact Or.inr ⟨cat, List.mem_cons_self _ _, h2⟩
      · exact Or.inr ⟨cat2, List.mem_cons_of_mem _ hc2, he⟩

theorem mirrorCheckpoint_puts (src : Archive) (ix : Nat) (s : MirrorSt) (q : GoStr)
    (hq : q ∈ (mirrorCheckpoint src ix s).puts) :
    q ∈ s.puts ∨ (∃ h2, q = BucketPath h2) ∨
      ∃ cat chk, cat ∈ Categories ∧ q = CategoryCheckpointPath cat chk := by
  rw [mirrorCheckpoint] at hq
  by_cases he : s.err.isSome
  · rw [if_pos he] at hq; exact Or.inl hq
  · rw [if_neg he] at hq
    cases hgf : src.GetCheckpointHAS ix with
    | error e => rw [hgf] at hq; exact Or.inl hq
    | ok has =>
        rw [hgf] at hq
        rcases categoriesFold_puts src ix Categories _ q hq with h | ⟨cat, hc, heq⟩
        · rcases mirrorPut_puts ix has _ q h with h2 | h2
          · rcases mirrorBuckets_puts src _ _ q h2 with h3 | h3
            · exact Or.inl h3
            · exact Or.inr (Or.inl h3)
          · exact Or.inr (Or.inr ⟨catHistory, ix, by simp [Categories], h2⟩)
        · exact Or.inr (Or.inr ⟨cat, ix, hc, heq⟩)

theorem mirrorLoop_puts (src : Archive) :
    ∀ (ixs : List Nat) (s : MirrorSt) (q : GoStr),
      q ∈ (mirrorLoop src ixs s).puts →
      q ∈ s.puts ∨ (∃ h2, q = BucketPath h2) ∨
        ∃ cat chk, cat ∈ Categories ∧ q = CategoryCheckpointPath cat chk := by
  intro ixs
  induction ixs with
  | nil => intro s q hq; exact Or.inl hq
  | cons ix rest ih =>
      intro s q hq
      rw [mirrorLoop] at hq
      rcases ih _ q hq with h | h
      · exact mirrorCheckpoint_puts src ix s q h
      · exact Or.inr h

/-- C3: in every Mirror invocation that completes without a fatal error,
    the destination root manifest is written exactly once, as the very
    last destination write, hence strictly after every checkpoint
    manifest write, every category-file copy and every bucket copy of
    the clamped range. -/
theorem mirror_root_written_once_after_all (src dst : Archive) (rng : Range)
    (hok : (Mirror src dst rng).err = none) :
    (Mirror src dst rng).puts.count rootHASPath = 1 ∧
    (Mirror src dst rng).puts.getLast? = some rootHASPath := by
  rw [Mirror] at hok ⊢
  cases hroot : src.GetRootHAS with
  | error e => rw [hroot] at hok; simp at hok
  | ok root =>
      rw [hroot] at hok
      simp only [] at hok ⊢
      simp only [mirrorFinish] at hok ⊢
      by_cases he : (mirrorLoop src (rng.clamp root.range).checkpoints ⟨[], dst, [], none⟩).err.isSome
      · rw [if_pos he] at hok
        rw [hok] at he
        simp at he
      · rw [if_neg he] at hok ⊢
        have hnotmem :
            rootHASPath ∉ (mirrorLoop src (rng.clamp root.range).checkpoints ⟨[], dst, [], none⟩).puts := by
          intro hmem
          rcases mirrorLoop_puts src _ _ _ hmem with h | ⟨h2, heq⟩ | ⟨cat, chk, hcat, heq⟩
          · simp at h
          · exact BucketPath_ne_root h2 heq.symm
          · exact CategoryCheckpointPath_ne_root cat hcat chk heq.symm
        constructor
        · simp only [List.count_append]
          rw [List.count_eq_zero.mpr hnotmem]
          simp
        · exact List.getLast?_concat _

set_option maxRecDepth 16000 in
/-- Witness: a successful one-checkpoint Mirror writes the root manifest
    once and last. -/
theorem mirror_root_written_once_after_all_witness :
    (Mirror srcComplete dstEmpty rng63).err = none ∧
    (Mirror srcComplete dstEmpty rng63).puts.count rootHASPath = 1 ∧
    (Mirror srcComplete dstEmpty rng63).puts.getLast? = some rootHASPath := by
  have h := mirror_root_written_once_after_all srcComplete dstEmpty rng63 (by decide)
  exact ⟨by decide, h.1, h.2⟩

theorem repairFilesLoop_puts (src : Archive) :
    ∀ (pairs : List (GoStr × Nat)) (dst : Archive) (puts : List GoStr) (rh : Bool) (q : GoStr),
      q ∈ (repairFilesLoop src pairs dst puts rh).puts →
      q ∈ puts ∨ ∃ pr, pr ∈ pairs ∧ q = CategoryCheckpointPath pr.1 pr.2 := by
  intro pairs
  induction pairs with
  | nil => intro dst puts rh q hq; exact Or.inl hq
  | cons pr rest ih =>
      intro dst puts rh q hq
      obtain ⟨cat, chk⟩ := pr
      rw [repairFilesLoop] at hq
      cases hgf : src.backend.getFile (CategoryCheckpointPath cat chk) with
      | error e => rw [hgf] at hq; exact Or.inl hq
      | ok c =>
          rw [hgf] at hq
          rcases ih _ _ _ q hq with h | ⟨pr2, hpr2, he⟩
          · rcases List.mem_append.mp h with h | h
            · exact Or.inl h
            · exact Or.inr ⟨(cat, chk), List.mem_cons_self _ _, List.mem_singleton.mp h⟩
          · exact Or.inr ⟨pr2, List.mem_cons_of_mem _ hpr2, he⟩

theorem repairBucketsLoop_puts (src : Archive) :
    ∀ (hs : List Hash) (dst : Archive) (puts : List GoStr) (q : GoStr),
      q ∈ (repairBucketsLoop src hs dst puts).2.1 →
      q ∈ puts ∨ ∃ h2, q = BucketPath h2 := by
  intro hs
  induction hs with
  | nil => intro dst puts q hq; exact Or.inl hq
  | cons h2 rest ih =>
      intro dst puts q hq
      rw [repairBucketsLoop] at hq
      cases hgf : src.backend.getFile (BucketPath h2) with
      | error e => rw [hgf] at hq; exact Or.inl hq
      | ok c =>
          rw [hgf] at hq
          rcases ih _ _ q hq with h | h
          · rcases List.mem_append.mp h with h | h
            · exact Or.inl h
            · exact Or.inr ⟨h2, List.mem_singleton.mp h⟩
          · exact Or.inr h

theorem missingPairs_cats (m : List (GoStr × List Nat))
    (hm : ∀ p ∈ m, p.1 ∈ Categories) :
    ∀ pr ∈ missingPairs m, pr.1 ∈ Categories := by
  intro pr hpr
  rw [missingPairs] at hpr
  rcases List.mem_flatten.mp hpr with ⟨l, hl, hprl⟩
  rcases List.mem_map.mp hl with ⟨p, hp, rfl⟩
  rcases List.mem_map.mp hprl with ⟨chk, hchk, rfl⟩
  exact hm p hp

theorem checkMissing_cats (a : Archive) (rng : Range) :
    ∀ p ∈ a.CheckCheckpointFilesMissing rng, p.1 ∈ Categories := by
  intro p hp
  rw [Archive.CheckCheckpointFilesMissing] at hp
  rcases List.mem_map.mp hp with ⟨cat, hc, rfl⟩
  exact hc

theorem repairBucketPhase_puts (src d : Archive) (puts : List GoStr) (q : GoStr)
    (hq : q ∈ (repairBucketPhase src d puts).puts) :
    q ∈ puts ∨ ∃ h2, q = BucketPath h2 := by
  rw [repairBucketPhase] at hq
  cases hsb : d.ScanBuckets with
  | err e d2 => rw [hsb] at hq; exact Or.inl hq
  | fatal e d2 => rw [hsb] at hq; exact Or.inl hq
  | ok d2 =>
      rw [hsb] at hq
      simp only [] at hq
      rcases hr : repairBucketsLoop src (d2.CheckBucketsMissing.map Prod.fst) d2 puts with ⟨d3, puts2, e⟩
      rw [hr] at hq
      simp only [] at hq
      exact repairBucketsLoop_puts src _ _ _ q (by rw [hr]; exact hq)

/-- C4: Repair never writes the destination root manifest: in every
    execution, every destination write is the copy of a category
    checkpoint file or of a bucket file, and none of these writes is the
    well-known root manifest path. -/
theorem repair_never_writes_root (src dst : Archive) (rng : Range) :
    rootHASPath ∉ (Repair src dst rng).puts ∧
    ∀ q ∈ (Repair src dst rng).puts,
      (∃ cat chk, cat ∈ Categories ∧ q = CategoryCheckpointPath cat chk) ∨
      ∃ h2, q = BucketPath h2 := by
  have hshape : ∀ q ∈ (Repair src dst rng).puts,
      (∃ cat chk, cat ∈ Categories ∧ q = CategoryCheckpointPath cat chk) ∨
      ∃ h2, q = BucketPath h2 := by
    intro q hq
    rw [Repair] at hq
    cases hroot : dst.GetRootHAS with
    | error e => rw [hroot] at hq; simp at hq
    | ok state =>
        rw [hroot] at hq
        simp only [] at hq
        cases hscan : dst.ScanCheckpoints (rng.clamp state.range) with
        | blocked d => rw [hscan] at hq; simp at hq
        | err e d => rw [hscan] at hq; simp at hq
        | ok d =>
            rw [hscan] at hq
            simp only [] at hq
            rcases hr1 : repairFilesLoop src
                (missingPairs (d.CheckCheckpointFilesMissing (rng.clamp state.range)))
                d [] false with ⟨d1, puts1, err1, rh⟩
            rw [hr1] at hq
            have hputs1 : ∀ q2 ∈ puts1,
                ∃ cat chk, cat ∈ Categories ∧ q2 = CategoryCheckpointPath cat chk := by
              intro q2 hq2
              have h := repairFilesLoop_puts src _ _ _ _ q2 (by rw [hr1]; exact hq2)
              rcases h with h | ⟨pr, hpr, he⟩
              · cases h
              · exact ⟨pr.1, pr.2, missingPairs_cats _ (checkMissing_cats d _) pr hpr, he⟩
            cases err1 with
            | some e =>
                simp only [] at hq
                exact Or.inl (hputs1 q hq)
            | none =>
                cases rh with
                | true =>
                    simp only [] at hq
                    cases hscan2 : d1.ClearCachedInfo.ScanCheckpoints (rng.clamp state.range) with
                    | blocked d2 =>
                        rw [hscan2] at hq
                        exact Or.inl (hputs1 q hq)
                    | err e d2 =>
                        rw [hscan2] at hq
                        exact Or.inl (hputs1 q hq)
                    | ok d2 =>
                        rw [hscan2] at hq
                        rcases repairBucketPhase_puts src d2 puts1 q hq with h | h
                        · exact Or.inl (hputs1 q h)
                        · exact Or.inr h
                | false =>
                    simp only [] at hq
                    rcases repairBucketPhase_puts src d1 puts1 q hq with h | h
                    · exact Or.inl (hputs1 q h)
                    · exact Or.inr h
  refine ⟨?_, hshape⟩
  intro hmem
  rcases hshape _ hmem with ⟨cat, chk, hcat, he⟩ | ⟨h2, he⟩
  · exact CategoryCheckpointPath_ne_root cat hcat chk he.symm
  · exact BucketPath_ne_root h2 he.symm

set_option maxRecDepth 16000 in
/-- Witness: a Repair of a destination holding only the root manifest
    and a history manifest never writes the root manifest path. -/
theorem repair_never_writes_root_witness :
    rootHASPath ∉ (Repair srcComplete reportCexArchive rng63).puts :=
  (repair_never_writes_root srcComplete reportCexArchive rng63).1

/-- C5 (amended): ReportMissing computes and logs the missing sets from
    the in-memory state accumulated by earlier scans; it performs no
    scan and no copy itself: the function issues no backend Put and no
    backend List operation. -/
theorem reportMissing_no_put_no_list (a : Archive) (rng : Range) :
    (a.ReportMissing rng).puts = [] ∧ (a.ReportMissing rng).lists = [] := by
  rw [Archive.ReportMissing]
  cases h : a.GetRootHAS with
  | error e => simp
  | ok state => simp

set_option maxRecDepth 16000 in
/-- C5 (counterexample): at a state whose backend holds the root
    manifest and the history file of checkpoint 0x3f but whose in-memory
    state is empty, ReportMissing issues no listing and reports the
    checkpoint as missing, although performing the checkpoint scan first
    would have recorded it present: ReportMissing does not perform the
    scans before computing the missing sets. -/
theorem reportMissing_performs_no_scan_cex :
    (reportCexArchive.ReportMissing rng63).lists = [] ∧
    mapLookup (reportCexArchive.ReportMissing rng63).missingChk catHistory = some [63] ∧
    (reportCexArchive.ScanCheckpoints rng63).isBlocked = false ∧
    mapLookup
      (((reportCexArchive.ScanCheckpoints rng63).state).CheckCheckpointFilesMissing rng63)
      catHistory = some [] := by
  refine ⟨by decide, by decide, by decide, by decide⟩

/-- C6: missing entries of the scp category are never logged by
    ReportMissing, and when every required category has an empty missing
    list the range is not flagged incomplete and no missing category is
    logged. -/
theorem reportMissing_scp_optional (a : Archive) (rng : Range) :
    (∀ p ∈ (a.ReportMissing rng).loggedMissing, categoryRequired p.1 = true) ∧
    ((∀ p ∈ (a.ReportMissing rng).missingChk, categoryRequired p.1 = true → p.2 = []) →
      (a.ReportMissing rng).missingCheckpoints = false ∧
      (a.ReportMissing rng).loggedMissing = []) := by
  rw [Archive.ReportMissing]
  cases h : a.GetRootHAS with
  | error e => simp
  | ok state =>
      simp only []
      constructor
      · intro p hp
        exact ((Bool.and_eq_true _ _).mp (List.mem_filter.mp hp).2).1
      · intro H
        have hfil : (a.CheckCheckpointFilesMissing (rng.clamp state.range)).filter
            (fun p => categoryRequired p.1 && !p.2.isEmpty) = [] := by
          rw [List.filter_eq_nil_iff]
          intro p hp
          by_cases hr : categoryRequired p.1 = true
          · have hp2 : p.2 = [] := H p hp hr
            simp [hr, hp2]
          · simp [hr]
        rw [hfil]
        simp

set_option maxRecDepth 16000 in
/-- Witness: when only the scp category has missing checkpoints, the
    range is not flagged incomplete and nothing is logged. -/
theorem reportMissing_scp_optional_witness :
    (scpOnlyMissingArchive.ReportMissing rng63).missingCheckpoints = false ∧
    (scpOnlyMissingArchive.ReportMissing rng63).loggedMissing = [] :=
  (reportMissing_scp_optional scpOnlyMissingArchive rng63).2 (by decide)

set_option maxRecDepth 16000 in
/-- C8 (divergence evidence): when a listing fails, the worker of
    ScanCheckpoints sends the error on the errs channel and then ranges
    over the nil channel returned by ListCategoryCheckpoints; receiving
    from a nil channel blocks forever, so ScanCheckpoints blocks instead
    of returning the first collected error after the workers drain. -/
theorem scanCheckpoints_listing_error_blocks :
    (faultyScanArchive.ScanCheckpoints rng63).isBlocked = true := by decide
